import Mathlib

/-!
# Verification of the JPEG segment-framing core

Shallow embedding of the repository's marker-recognition and
segment-framing engine (`src/marker.rs`, `src/segment.rs`) together with
the superseded draft stream-walker from `src/main.rs`.  Byte buffers are
modelled as `List Nat` (each entry a byte value); Rust slicing
`bytes[a..b]` becomes `(bytes.drop a).take (b - a)`, which the embedding
only evaluates under the same bounds checks the source performs.
-/

namespace JpegDecoder

/-- The `Marker` enum from `src/marker.rs`. -/
inductive Marker where
  | DefineHuffmanTable
  | StartOfImage
  | EndOfImage
  | StartOfScan
  | DefineQuantizationTable
  | Comment
deriving DecidableEq, Repr

/-- Classification carried by `InvalidMarkerError`'s message, as computed by
`InvalidMarkerError::new` in `src/marker.rs`: too many bytes, too few bytes,
or a 2-byte pair that is not a valid marker (the message embeds the pair). -/
inductive MarkerErrorKind where
  | tooManyBytes
  | tooFewBytes
  | unknownCode (b0 b1 : Nat)
deriving DecidableEq, Repr

/-- `InvalidMarkerError` from `src/marker.rs`: it stores the offending bytes
and a message; the message's content is modelled by `MarkerErrorKind`. -/
structure InvalidMarkerError where
  bytes : List Nat
  kind : MarkerErrorKind
deriving DecidableEq, Repr

/-- `InvalidMarkerError::new` from `src/marker.rs`. -/
def InvalidMarkerError.new (bytes : List Nat) : InvalidMarkerError :=
  { bytes := bytes,
    kind :=
      if bytes.length > 2 then .tooManyBytes
      else if bytes.length < 2 then .tooFewBytes
      else .unknownCode (bytes.getD 0 0) (bytes.getD 1 0) }

/-- `Marker::from_bytes` from `src/marker.rs`: a length-2 check followed by a
match of the byte pair against the six known codes. -/
def Marker.from_bytes (bytes : List Nat) : Except InvalidMarkerError Marker :=
  if bytes.length ≠ 2 then .error (InvalidMarkerError.new bytes)
  else if bytes = [0xff, 0xc4] then .ok .DefineHuffmanTable
  else if bytes = [0xff, 0xd8] then .ok .StartOfImage
  else if bytes = [0xff, 0xd9] then .ok .EndOfImage
  else if bytes = [0xff, 0xda] then .ok .StartOfScan
  else if bytes = [0xff, 0xdb] then .ok .DefineQuantizationTable
  else if bytes = [0xff, 0xfe] then .ok .Comment
  else .error (InvalidMarkerError.new bytes)

/-- The `Segment` struct from `src/segment.rs`. -/
structure Segment where
  marker : Marker
  data : Option (List Nat)
deriving DecidableEq, Repr

/-- `InvalidSegmentError` from `src/segment.rs`, one constructor per
constructor function (`too_few_bytes`, `invalid_marker`, `no_length_bytes`,
`length_less_than_two`, `too_few_data_bytes`), each carrying what the source
puts into the message or the chained cause. -/
inductive InvalidSegmentError where
  | tooFewBytes (n : Nat)
  | invalidMarker (cause : InvalidMarkerError)
  | noLengthBytes
  | lengthLessThanTwo (n : Nat)
  | tooFewDataBytes (nExpected nActual : Nat)
deriving DecidableEq, Repr

/-- `Segment::read_from_start_of_bytes` from `src/segment.rs`.  The guarded
subtractions `length - 2` and `bytes_len - 4` and the slice
`bytes[4 .. 4+length-2]` appear exactly where the source performs them. -/
def Segment.read_from_start_of_bytes (bytes : List Nat) :
    Except InvalidSegmentError Segment :=
  let bytes_len := bytes.length
  if bytes_len < 2 then .error (.tooFewBytes bytes_len)
  else
    match Marker.from_bytes (bytes.take 2) with
    | .error e => .error (.invalidMarker e)
    | .ok marker =>
      if marker = .StartOfImage ∨ marker = .EndOfImage then
        .ok { marker := marker, data := none }
      else if bytes_len < 4 then .error .noLengthBytes
      else
        let length := (bytes.getD 2 0) * 256 + bytes.getD 3 0
        if length < 2 then .error (.lengthLessThanTwo length)
        else if bytes_len < length + 2 then
          .error (.tooFewDataBytes (length - 2) (bytes_len - 4))
        else
          .ok { marker := marker, data := some ((bytes.drop 4).take (length - 2)) }

/-- The per-segment advance that `Segment::parse_bytes_to_segments` recomputes
from a successfully read segment (`data.len() + 4` or `2`). -/
def segmentLength (seg : Segment) : Nat :=
  match seg.data with
  | some d => d.length + 4
  | none => 2

/-- `ParseToSegmentsError` from `src/segment.rs` (message omitted, it is
derived from the three fields). -/
structure ParseToSegmentsError where
  bytes_parsed : Nat
  segments_parsed : Nat
  cause : InvalidSegmentError
deriving DecidableEq, Repr

theorem segmentLength_pos (seg : Segment) : 0 < segmentLength seg := by
  unfold segmentLength
  cases seg.data <;> simp

/-- The loop of `Segment::parse_bytes_to_segments`: while the cursor has not
reached the end, read one segment from `bytes[bytes_parsed..]`, append it and
advance by the recomputed segment length; at the first error return a
`ParseToSegmentsError` carrying the cursor, the count and the cause. -/
def parseLoop (bytes : List Nat) (bytes_parsed : Nat) (acc : List Segment)
    (segments_parsed : Nat) : Except ParseToSegmentsError (List Segment) :=
  if _h : bytes_parsed < bytes.length then
    match Segment.read_from_start_of_bytes (bytes.drop bytes_parsed) with
    | .ok seg =>
        parseLoop bytes (bytes_parsed + segmentLength seg) (acc ++ [seg])
          (segments_parsed + 1)
    | .error e => .error ⟨bytes_parsed, segments_parsed, e⟩
  else .ok acc
termination_by bytes.length - bytes_parsed
decreasing_by
  have := segmentLength_pos seg
  omega

/-- `Segment::parse_bytes_to_segments` from `src/segment.rs`. -/
def Segment.parse_bytes_to_segments (bytes : List Nat) :
    Except ParseToSegmentsError (List Segment) :=
  parseLoop bytes 0 [] 0

/-! ## Wire format

The binary layout the claims quantify over: a valid segment on the wire is
either the 2-byte StartOfImage/EndOfImage token, or a length-delimited
marker's 2-byte code followed by a big-endian 16-bit length `L = payload + 2`
and the payload bytes. -/

/-- The 2-byte code of each marker (the known-code table of
`Marker::from_bytes`). -/
def markerCode : Marker → List Nat
  | .DefineHuffmanTable => [0xff, 0xc4]
  | .StartOfImage => [0xff, 0xd8]
  | .EndOfImage => [0xff, 0xd9]
  | .StartOfScan => [0xff, 0xda]
  | .DefineQuantizationTable => [0xff, 0xdb]
  | .Comment => [0xff, 0xfe]

/-- A segment value that has a wire representation: payload absent exactly for
the StartOfImage/EndOfImage tokens, and a payload short enough that its
length field `payload + 2` fits in 16 bits. -/
def validSegment (seg : Segment) : Prop :=
  match seg.data with
  | none => seg.marker = .StartOfImage ∨ seg.marker = .EndOfImage
  | some d =>
      ¬(seg.marker = .StartOfImage ∨ seg.marker = .EndOfImage) ∧
        d.length + 2 ≤ 65535

/-- The wire bytes of one valid segment: the marker code alone for the
token markers, otherwise code, big-endian length `payload + 2`, payload. -/
def encodeSegment (seg : Segment) : List Nat :=
  match seg.data with
  | none => markerCode seg.marker
  | some d =>
      markerCode seg.marker ++ [(d.length + 2) / 256, (d.length + 2) % 256] ++ d

/-- Exact concatenation of the wire bytes of a list of segments. -/
def encodeSegments (segs : List Segment) : List Nat :=
  (segs.map encodeSegment).flatten

/-! ## The superseded draft from `src/main.rs` -/

/-- Outcome of the draft `convert_bytes_to_markers`: a Rust panic
(out-of-bounds slice index), the `None` failure value, or `Some` list of
(marker, data) pairs. -/
inductive DraftOut where
  | panic
  | fail
  | ok (l : List (Marker × List Nat))
deriving DecidableEq, Repr

/-- `get_marker_from_bytes` from `src/main.rs` (its `bytes_to_marker` is
byte-for-byte the same match as `Marker::from_bytes`). -/
def get_marker_from_bytes (bytes : List Nat) : Option Marker :=
  if bytes.length < 2 then none
  else
    match Marker.from_bytes (bytes.take 2) with
    | .ok marker => some marker
    | .error _ => none

/-- The loop of the draft `convert_bytes_to_markers` from `src/main.rs`,
kept with its bugs: the marker is always read from the start of the whole
buffer, the room-for-length-bytes check `bytes_consumed + 4 < bytes.len()`
fails when there IS room, and the payload slice indexes the 2-byte
`data_bytes` slice by `bytes_consumed`.  A slice whose bounds exceed the
sliced list's length is a Rust panic, modelled as `DraftOut.panic`. -/
def convertLoop (bytes : List Nat) (bytes_consumed : Nat)
    (acc : List (Marker × List Nat)) : DraftOut :=
  if _h : bytes_consumed < bytes.length then
    match get_marker_from_bytes bytes with
    | none => .fail
    | some marker =>
      if marker = .StartOfImage ∨ marker = .EndOfImage then
        convertLoop bytes (bytes_consumed + 2) (acc ++ [(marker, [])])
      else if bytes_consumed + 4 < bytes.length then .fail
      else if bytes.length < bytes_consumed + 4 then .panic
      else
        let data_bytes := (bytes.drop (bytes_consumed + 2)).take 2
        let data_length := (data_bytes.getD 0 0) * 256 + data_bytes.getD 1 0
        let bc := bytes_consumed + 4
        let remaining_length := bytes.length - bc
        if data_length > remaining_length then .fail
        else if data_bytes.length < bc + data_length then .panic
        else
          convertLoop bytes (bc + data_length)
            (acc ++ [(marker, (data_bytes.drop bc).take data_length)])
  else .ok acc
termination_by bytes.length - bytes_consumed
decreasing_by
  · omega
  · omega

/-- `convert_bytes_to_markers` from `src/main.rs`. -/
def convert_bytes_to_markers (bytes : List Nat) : DraftOut :=
  convertLoop bytes 0 []

/-! ## Lemmas about `Marker.from_bytes` -/

theorem from_bytes_ok_iff (bytes : List Nat) (m : Marker) :
    Marker.from_bytes bytes = .ok m ↔ bytes = markerCode m := by
  constructor
  · intro h
    unfold Marker.from_bytes at h
    split_ifs at h <;> simp at h <;> (subst h; simp_all [markerCode])
  · intro h
    subst h
    cases m <;> rfl

theorem from_bytes_len_ne_two (bytes : List Nat) (h : bytes.length ≠ 2) :
    Marker.from_bytes bytes =
      .error { bytes := bytes,
               kind := if bytes.length > 2 then .tooManyBytes else .tooFewBytes } := by
  unfold Marker.from_bytes InvalidMarkerError.new
  rw [if_pos h]
  by_cases hgt : bytes.length > 2
  · simp [hgt]
  · have hlt : bytes.length < 2 := by omega
    simp [hgt, hlt]

theorem from_bytes_unknown (b0 b1 : Nat) (h : ∀ m : Marker, [b0, b1] ≠ markerCode m) :
    Marker.from_bytes [b0, b1] =
      .error { bytes := [b0, b1], kind := .unknownCode b0 b1 } := by
  have h1 := h .DefineHuffmanTable
  have h2 := h .StartOfImage
  have h3 := h .EndOfImage
  have h4 := h .StartOfScan
  have h5 := h .DefineQuantizationTable
  have h6 := h .Comment
  simp only [markerCode] at h1 h2 h3 h4 h5 h6
  unfold Marker.from_bytes InvalidMarkerError.new
  simp only [List.length_cons, List.length_nil]
  split_ifs <;> simp_all


/-! ## Lemmas about `Segment.read_from_start_of_bytes` and the parse loop -/

/-- The big-endian length field as `read_from_start_of_bytes` computes it. -/
def lengthField (bytes : List Nat) : Nat :=
  (bytes.getD 2 0) * 256 + bytes.getD 3 0

theorem read_too_few (bytes : List Nat) (h : bytes.length < 2) :
    Segment.read_from_start_of_bytes bytes = .error (.tooFewBytes bytes.length) := by
  unfold Segment.read_from_start_of_bytes
  rw [if_pos h]

theorem read_invalid_marker (bytes : List Nat) (e : InvalidMarkerError)
    (h2 : ¬ bytes.length < 2)
    (hm : Marker.from_bytes (bytes.take 2) = .error e) :
    Segment.read_from_start_of_bytes bytes = .error (.invalidMarker e) := by
  unfold Segment.read_from_start_of_bytes
  rw [if_neg h2, hm]

theorem read_token (bytes : List Nat) (m : Marker) (h2 : ¬ bytes.length < 2)
    (hm : Marker.from_bytes (bytes.take 2) = .ok m)
    (hse : m = .StartOfImage ∨ m = .EndOfImage) :
    Segment.read_from_start_of_bytes bytes = .ok ⟨m, none⟩ := by
  unfold Segment.read_from_start_of_bytes
  rw [if_neg h2, hm]
  simp [hse]

theorem read_no_length (bytes : List Nat) (m : Marker) (h2 : ¬ bytes.length < 2)
    (hm : Marker.from_bytes (bytes.take 2) = .ok m)
    (hse : ¬ (m = .StartOfImage ∨ m = .EndOfImage)) (h4 : bytes.length < 4) :
    Segment.read_from_start_of_bytes bytes = .error .noLengthBytes := by
  unfold Segment.read_from_start_of_bytes
  rw [if_neg h2, hm]
  simp [hse, h4]

theorem read_len_lt_two (bytes : List Nat) (m : Marker) (h2 : ¬ bytes.length < 2)
    (hm : Marker.from_bytes (bytes.take 2) = .ok m)
    (hse : ¬ (m = .StartOfImage ∨ m = .EndOfImage)) (h4 : ¬ bytes.length < 4)
    (hl : lengthField bytes < 2) :
    Segment.read_from_start_of_bytes bytes =
      .error (.lengthLessThanTwo (lengthField bytes)) := by
  unfold Segment.read_from_start_of_bytes
  rw [if_neg h2, hm]
  simp only [lengthField, List.getD_eq_getElem?_getD] at hl
  simp [hse, h4, hl, lengthField]

theorem read_too_few_data (bytes : List Nat) (m : Marker) (h2 : ¬ bytes.length < 2)
    (hm : Marker.from_bytes (bytes.take 2) = .ok m)
    (hse : ¬ (m = .StartOfImage ∨ m = .EndOfImage)) (h4 : ¬ bytes.length < 4)
    (hl : ¬ lengthField bytes < 2) (hd : bytes.length < lengthField bytes + 2) :
    Segment.read_from_start_of_bytes bytes =
      .error (.tooFewDataBytes (lengthField bytes - 2) (bytes.length - 4)) := by
  unfold Segment.read_from_start_of_bytes
  rw [if_neg h2, hm]
  simp only [lengthField, List.getD_eq_getElem?_getD] at hl hd
  simp [hse, h4, hl, hd, lengthField]

theorem read_ok_data (bytes : List Nat) (m : Marker) (h2 : ¬ bytes.length < 2)
    (hm : Marker.from_bytes (bytes.take 2) = .ok m)
    (hse : ¬ (m = .StartOfImage ∨ m = .EndOfImage)) (h4 : ¬ bytes.length < 4)
    (hl : ¬ lengthField bytes < 2) (hd : ¬ bytes.length < lengthField bytes + 2) :
    Segment.read_from_start_of_bytes bytes =
      .ok ⟨m, some ((bytes.drop 4).take (lengthField bytes - 2))⟩ := by
  unfold Segment.read_from_start_of_bytes
  rw [if_neg h2, hm]
  simp only [lengthField, List.getD_eq_getElem?_getD] at hl hd
  simp [hse, h4, hl, hd, lengthField]

/-- Inversion: everything true of a successful read. -/
theorem read_ok_inv (bytes : List Nat) (seg : Segment)
    (h : Segment.read_from_start_of_bytes bytes = .ok seg) :
    2 ≤ bytes.length ∧ Marker.from_bytes (bytes.take 2) = .ok seg.marker ∧
      ((seg.data = none ∧ (seg.marker = .StartOfImage ∨ seg.marker = .EndOfImage)) ∨
        (¬ (seg.marker = .StartOfImage ∨ seg.marker = .EndOfImage) ∧
          4 ≤ bytes.length ∧ 2 ≤ lengthField bytes ∧
          lengthField bytes + 2 ≤ bytes.length ∧
          seg.data = some ((bytes.drop 4).take (lengthField bytes - 2)))) := by
  simp only [Segment.read_from_start_of_bytes] at h
  by_cases h1 : bytes.length < 2
  · rw [if_pos h1] at h
    exact absurd h (by simp)
  · rw [if_neg h1] at h
    split at h
    · exact absurd h (by simp)
    · rename_i m hm
      by_cases hse : m = .StartOfImage ∨ m = .EndOfImage
      · rw [if_pos hse] at h
        injection h with h
        subst h
        exact ⟨by omega, hm, .inl ⟨rfl, hse⟩⟩
      · rw [if_neg hse] at h
        by_cases h4 : bytes.length < 4
        · rw [if_pos h4] at h
          exact absurd h (by simp)
        · rw [if_neg h4] at h
          by_cases hl : (bytes.getD 2 0) * 256 + bytes.getD 3 0 < 2
          · rw [if_pos hl] at h
            exact absurd h (by simp)
          · rw [if_neg hl] at h
            by_cases hd : bytes.length < (bytes.getD 2 0) * 256 + bytes.getD 3 0 + 2
            · rw [if_pos hd] at h
              exact absurd h (by simp)
            · rw [if_neg hd] at h
              injection h with h
              subst h
              refine ⟨by omega, hm, .inr ⟨hse, by omega, ?_, ?_, rfl⟩⟩
              · simp only [lengthField]
                omega
              · simp only [lengthField]
                omega



/-- Inversion for the `tooFewDataBytes` error: its fields are the guarded
subtractions, evaluated only when the guards hold. -/
theorem read_too_few_data_inv (bytes : List Nat) (e a : Nat)
    (h : Segment.read_from_start_of_bytes bytes = .error (.tooFewDataBytes e a)) :
    4 ≤ bytes.length ∧ 2 ≤ lengthField bytes ∧
      e + 2 = lengthField bytes ∧ a + 4 = bytes.length ∧
      bytes.length < lengthField bytes + 2 := by
  simp only [Segment.read_from_start_of_bytes] at h
  by_cases h1 : bytes.length < 2
  · rw [if_pos h1] at h
    exact absurd h (by simp)
  · rw [if_neg h1] at h
    split at h
    · exact absurd h (by simp)
    · rename_i m hm
      by_cases hse : m = .StartOfImage ∨ m = .EndOfImage
      · rw [if_pos hse] at h
        exact absurd h (by simp)
      · rw [if_neg hse] at h
        by_cases h4 : bytes.length < 4
        · rw [if_pos h4] at h
          exact absurd h (by simp)
        · rw [if_neg h4] at h
          by_cases hl : (bytes.getD 2 0) * 256 + bytes.getD 3 0 < 2
          · rw [if_pos hl] at h
            exact absurd h (by simp)
          · rw [if_neg hl] at h
            by_cases hd : bytes.length < (bytes.getD 2 0) * 256 + bytes.getD 3 0 + 2
            · rw [if_pos hd] at h
              injection h with h
              injection h with he ha
              simp only [lengthField]
              omega
            · rw [if_neg hd] at h
              exact absurd h (by simp)

theorem segmentLength_ge_two (seg : Segment) : 2 ≤ segmentLength seg := by
  unfold segmentLength
  cases seg.data <;> simp

/-- A successful read never claims more bytes than the buffer holds. -/
theorem read_consumed_le (bytes : List Nat) (seg : Segment)
    (h : Segment.read_from_start_of_bytes bytes = .ok seg) :
    segmentLength seg ≤ bytes.length := by
  rcases read_ok_inv bytes seg h with ⟨h2, _, hcase⟩
  rcases hcase with ⟨hnone, _⟩ | ⟨_, h4, hl, hd, hdata⟩
  · simp [segmentLength, hnone]
    omega
  · simp [segmentLength, hdata, List.length_take]
    omega



theorem markerCode_length (m : Marker) : (markerCode m).length = 2 := by
  cases m <;> rfl

theorem encodeSegment_length (seg : Segment) :
    (encodeSegment seg).length = segmentLength seg := by
  obtain ⟨m, data⟩ := seg
  cases data with
  | none => simp [encodeSegment, segmentLength, markerCode_length]
  | some d =>
    simp [encodeSegment, segmentLength, markerCode_length]
    omega

/-- Reading a buffer headed by a length-delimited record. -/
theorem read_cons4 (b0 b1 hi lo : Nat) (tail : List Nat) (m : Marker)
    (hm : Marker.from_bytes [b0, b1] = .ok m)
    (hse : ¬ (m = .StartOfImage ∨ m = .EndOfImage))
    (hl : 2 ≤ hi * 256 + lo) (hd : hi * 256 + lo ≤ tail.length + 2) :
    Segment.read_from_start_of_bytes (b0 :: b1 :: hi :: lo :: tail) =
      .ok ⟨m, some (tail.take (hi * 256 + lo - 2))⟩ := by
  have hlf : lengthField (b0 :: b1 :: hi :: lo :: tail) = hi * 256 + lo := by
    simp [lengthField]
  have := read_ok_data (b0 :: b1 :: hi :: lo :: tail) m
    (by simp) (by simpa using hm) hse (by simp) (by omega) (by rw [hlf]; simp; omega)
  rw [this, hlf]
  simp

/-- Reading the wire bytes of a valid segment, with anything after them,
yields exactly that segment. -/
theorem read_encode (seg : Segment) (rest : List Nat) (hv : validSegment seg) :
    Segment.read_from_start_of_bytes (encodeSegment seg ++ rest) = .ok seg := by
  obtain ⟨m, data⟩ := seg
  cases data with
  | none =>
    simp only [validSegment] at hv
    have hcode : encodeSegment ⟨m, none⟩ = markerCode m := rfl
    apply read_token
    · rw [hcode]
      simp [markerCode_length]
    · rw [hcode, List.take_append_of_le_length (by rw [markerCode_length])]
      have : (markerCode m).take 2 = markerCode m := by
        cases m <;> rfl
      rw [this, from_bytes_ok_iff]
    · exact hv
  | some d =>
    simp only [validSegment] at hv
    obtain ⟨hse, hlen⟩ := hv
    have hdm : (d.length + 2) / 256 * 256 + (d.length + 2) % 256 = d.length + 2 := by
      omega
    have hcons : encodeSegment ⟨m, some d⟩ ++ rest =
        (markerCode m).getD 0 0 :: (markerCode m).getD 1 0 ::
          (d.length + 2) / 256 :: (d.length + 2) % 256 :: (d ++ rest) := by
      cases m <;> simp [encodeSegment, markerCode]
    rw [hcons]
    have hm : Marker.from_bytes [(markerCode m).getD 0 0, (markerCode m).getD 1 0] = .ok m := by
      rw [from_bytes_ok_iff]
      cases m <;> rfl
    rw [read_cons4 _ _ _ _ _ m hm hse (by omega) (by simp; omega)]
    rw [hdm]
    simp



theorem parseLoop_step_ok (B : List Nat) (c : Nat) (acc : List Segment) (n : Nat)
    (seg : Segment) (hlt : c < B.length)
    (hr : Segment.read_from_start_of_bytes (B.drop c) = .ok seg) :
    parseLoop B c acc n = parseLoop B (c + segmentLength seg) (acc ++ [seg]) (n + 1) := by
  rw [parseLoop.eq_def, dif_pos hlt, hr]

theorem parseLoop_step_err (B : List Nat) (c : Nat) (acc : List Segment) (n : Nat)
    (e : InvalidSegmentError) (hlt : c < B.length)
    (hr : Segment.read_from_start_of_bytes (B.drop c) = .error e) :
    parseLoop B c acc n = .error ⟨c, n, e⟩ := by
  rw [parseLoop.eq_def, dif_pos hlt, hr]

theorem parseLoop_exit (B : List Nat) (c : Nat) (acc : List Segment) (n : Nat)
    (h : ¬ c < B.length) : parseLoop B c acc n = .ok acc := by
  rw [parseLoop.eq_def, dif_neg h]

/-- Success inversion: a successful loop run appends segments whose
recomputed lengths land the cursor exactly on the buffer length. -/
theorem parseLoop_ok_inv (B : List Nat) :
    ∀ k c acc n segs, B.length - c ≤ k → c ≤ B.length →
      parseLoop B c acc n = .ok segs →
      ∃ t, segs = acc ++ t ∧ c + (t.map segmentLength).sum = B.length := by
  intro k
  induction k with
  | zero =>
    intro c acc n segs hk hc h
    have hnlt : ¬ c < B.length := by omega
    rw [parseLoop_exit B c acc n hnlt] at h
    injection h with h
    exact ⟨[], by simp [h], by simp; omega⟩
  | succ k ih =>
    intro c acc n segs hk hc h
    by_cases hlt : c < B.length
    · cases hr : Segment.read_from_start_of_bytes (B.drop c) with
      | error e =>
        rw [parseLoop_step_err B c acc n e hlt hr] at h
        exact absurd h (by simp)
      | ok seg =>
        rw [parseLoop_step_ok B c acc n seg hlt hr] at h
        have hle := read_consumed_le _ _ hr
        rw [List.length_drop] at hle
        have h2 := segmentLength_ge_two seg
        obtain ⟨t, ht, hsum⟩ :=
          ih (c + segmentLength seg) (acc ++ [seg]) (n + 1) segs
            (by omega) (by omega) h
        refine ⟨seg :: t, by simp [ht], ?_⟩
        simp only [List.map_cons, List.sum_cons]
        omega
    · rw [parseLoop_exit B c acc n hlt] at h
      injection h with h
      exact ⟨[], by simp [h], by simp; omega⟩

/-- Error inversion: a failing loop run reports a cursor within the buffer at
which the segment read fails with exactly the reported cause. -/
theorem parseLoop_err_inv (B : List Nat) :
    ∀ k c acc n err, B.length - c ≤ k → c ≤ B.length →
      parseLoop B c acc n = .error err →
      c ≤ err.bytes_parsed ∧ err.bytes_parsed < B.length ∧
        Segment.read_from_start_of_bytes (B.drop err.bytes_parsed) =
          .error err.cause := by
  intro k
  induction k with
  | zero =>
    intro c acc n err hk hc h
    have hnlt : ¬ c < B.length := by omega
    rw [parseLoop_exit B c acc n hnlt] at h
    exact absurd h (by simp)
  | succ k ih =>
    intro c acc n err hk hc h
    by_cases hlt : c < B.length
    · cases hr : Segment.read_from_start_of_bytes (B.drop c) with
      | error e =>
        rw [parseLoop_step_err B c acc n e hlt hr] at h
        injection h with h
        subst h
        exact ⟨le_refl c, hlt, hr⟩
      | ok seg =>
        rw [parseLoop_step_ok B c acc n seg hlt hr] at h
        have hle := read_consumed_le _ _ hr
        rw [List.length_drop] at hle
        have h2 := segmentLength_ge_two seg
        obtain ⟨hc2, hb, hcause⟩ :=
          ih (c + segmentLength seg) (acc ++ [seg]) (n + 1) err
            (by omega) (by omega) h
        exact ⟨by omega, hb, hcause⟩
    · rw [parseLoop_exit B c acc n hlt] at h
      exact absurd h (by simp)

theorem encodeSegments_cons (s : Segment) (ss : List Segment) :
    encodeSegments (s :: ss) = encodeSegment s ++ encodeSegments ss := by
  simp [encodeSegments]

/-- Running the loop over the wire bytes of valid segments parses exactly
those segments and advances the cursor over all of them. -/
theorem parseLoop_chunk (segs : List Segment) (hv : ∀ s ∈ segs, validSegment s) :
    ∀ rest B c acc n, B.drop c = encodeSegments segs ++ rest →
      parseLoop B c acc n =
        parseLoop B (c + (encodeSegments segs).length) (acc ++ segs)
          (n + segs.length) := by
  induction segs with
  | nil =>
    intro rest B c acc n _
    simp [encodeSegments]
  | cons s ss ih =>
    intro rest B c acc n hdrop
    rw [encodeSegments_cons] at hdrop
    have hvs : validSegment s := hv s (by simp)
    have hlen : (encodeSegment s).length = segmentLength s := encodeSegment_length s
    have hge := segmentLength_ge_two s
    have hdl : (B.drop c).length = B.length - c := List.length_drop c B
    have hlt : c < B.length := by
      rw [hdrop] at hdl
      simp at hdl
      omega
    have hr : Segment.read_from_start_of_bytes (B.drop c) = .ok s := by
      rw [hdrop, List.append_assoc]
      exact read_encode s _ hvs
    rw [parseLoop_step_ok B c acc n s hlt hr]
    have hdrop2 : B.drop (c + segmentLength s) = encodeSegments ss ++ rest := by
      rw [← hlen, ← List.drop_drop]  -- careful with argument order
      rw [hdrop, List.append_assoc, List.drop_left]
    rw [ih (fun s hs => hv s (by simp [hs])) rest B (c + segmentLength s)
      (acc ++ [s]) (n + 1) hdrop2]
    rw [encodeSegments_cons]
    simp only [List.length_append, hlen, List.append_assoc, List.singleton_append,
      List.length_cons]
    have e1 : c + segmentLength s + (encodeSegments ss).length =
        c + (segmentLength s + (encodeSegments ss).length) := by omega
    have e2 : n + 1 + ss.length = n + (ss.length + 1) := by omega
    rw [e1, e2]


/-! ## Claim theorems -/

/-- Claim C6: restricted to the known-code table, marker decoding is a
bijection: each of the six codes decodes to its distinct variant, a decode
can only succeed on the variant's own code, and no two variants share a
code. -/
theorem marker_table_bijection :
    (Marker.from_bytes [0xff, 0xc4] = .ok .DefineHuffmanTable ∧
      Marker.from_bytes [0xff, 0xd8] = .ok .StartOfImage ∧
      Marker.from_bytes [0xff, 0xd9] = .ok .EndOfImage ∧
      Marker.from_bytes [0xff, 0xda] = .ok .StartOfScan ∧
      Marker.from_bytes [0xff, 0xdb] = .ok .DefineQuantizationTable ∧
      Marker.from_bytes [0xff, 0xfe] = .ok .Comment) ∧
    (∀ bytes m, Marker.from_bytes bytes = .ok m → bytes = markerCode m) ∧
    (∀ m m' : Marker, markerCode m = markerCode m' → m = m') := by
  refine ⟨⟨rfl, rfl, rfl, rfl, rfl, rfl⟩, ?_, ?_⟩
  · intro bytes m h
    exact (from_bytes_ok_iff bytes m).mp h
  · intro m m' h
    cases m <;> cases m' <;> simp_all [markerCode]

/-- Witness for C6 at concrete inputs. -/
theorem marker_table_bijection_witness :
    [0xff, 0xd8] = markerCode .StartOfImage ∧ Marker.StartOfImage = .StartOfImage :=
  ⟨marker_table_bijection.2.1 [0xff, 0xd8] .StartOfImage rfl,
    marker_table_bijection.2.2 .StartOfImage .StartOfImage rfl⟩

/-- Claim C7: decoding any buffer of length other than 2 fails, classified
by whether it is too short or too long regardless of content, and decoding
any 2-byte pair outside the table fails with an unknown-code error carrying
those two bytes. -/
theorem marker_decode_length_and_unknown :
    (∀ bytes : List Nat, bytes.length < 2 →
      Marker.from_bytes bytes = .error { bytes := bytes, kind := .tooFewBytes }) ∧
    (∀ bytes : List Nat, 2 < bytes.length →
      Marker.from_bytes bytes = .error { bytes := bytes, kind := .tooManyBytes }) ∧
    (∀ b0 b1 : Nat, (∀ m : Marker, [b0, b1] ≠ markerCode m) →
      Marker.from_bytes [b0, b1] =
        .error { bytes := [b0, b1], kind := .unknownCode b0 b1 }) := by
  refine ⟨?_, ?_, from_bytes_unknown⟩
  · intro bytes h
    have := from_bytes_len_ne_two bytes (by omega)
    rw [this]
    simp
    omega
  · intro bytes h
    have := from_bytes_len_ne_two bytes (by omega)
    rw [this]
    simp
    omega

/-- Witness for C7 at concrete inputs: a 1-byte, a 3-byte and an unknown
2-byte input (the inputs of the `bytes_to_marker` test in `src/main.rs`). -/
theorem marker_decode_length_and_unknown_witness :
    Marker.from_bytes [0] = .error { bytes := [0], kind := .tooFewBytes } ∧
    Marker.from_bytes [0, 0, 0] = .error { bytes := [0, 0, 0], kind := .tooManyBytes } ∧
    Marker.from_bytes [0, 0] = .error { bytes := [0, 0], kind := .unknownCode 0 0 } :=
  ⟨marker_decode_length_and_unknown.1 [0] (by simp),
    marker_decode_length_and_unknown.2.1 [0, 0, 0] (by simp),
    marker_decode_length_and_unknown.2.2 0 0
      (by intro m; cases m <;> simp [markerCode])⟩

/-- Claim C10: the draft `convert_bytes_to_markers` in `src/main.rs` is not
behaviorally equivalent to `Segment::parse_bytes_to_segments`: on the valid
buffer Comment marker, length 3, payload `[0xaa]` the final parser succeeds
while the draft returns its failure value (its inverted bounds check
`bytes_consumed + 4 < bytes.len()` rejects exactly the buffers with room for
payload bytes). -/
theorem draft_not_equivalent_to_parse :
    Segment.parse_bytes_to_segments [0xff, 0xfe, 0x00, 0x03, 0xaa] =
      .ok [⟨.Comment, some [0xaa]⟩] ∧
    convert_bytes_to_markers [0xff, 0xfe, 0x00, 0x03, 0xaa] = .fail := by
  constructor
  · simp [Segment.parse_bytes_to_segments, parseLoop, Segment.read_from_start_of_bytes,
      Marker.from_bytes, InvalidMarkerError.new, segmentLength]
  · simp [convert_bytes_to_markers, convertLoop, get_marker_from_bytes,
      Marker.from_bytes, InvalidMarkerError.new]



/-- Claim C3: on a buffer whose first two bytes decode to StartOfImage or
EndOfImage, reading yields a payload-free segment advancing 2 bytes,
regardless of trailing bytes; on a buffer headed by any other known marker
with big-endian length `L ≥ 2` and at least `L + 2` bytes, reading yields
payload `buffer[4 .. 4+(L-2)]` of length `L - 2` advancing `L + 2` bytes;
and a read segment has no payload exactly when its marker is
StartOfImage or EndOfImage. -/
theorem read_one_shapes :
    (∀ (bytes : List Nat) (m : Marker), 2 ≤ bytes.length →
      Marker.from_bytes (bytes.take 2) = .ok m →
      (m = .StartOfImage ∨ m = .EndOfImage) →
      Segment.read_from_start_of_bytes bytes = .ok ⟨m, none⟩ ∧
        segmentLength ⟨m, none⟩ = 2) ∧
    (∀ (bytes : List Nat) (m : Marker),
      Marker.from_bytes (bytes.take 2) = .ok m →
      ¬ (m = .StartOfImage ∨ m = .EndOfImage) →
      2 ≤ lengthField bytes → lengthField bytes + 2 ≤ bytes.length →
      ∃ d, Segment.read_from_start_of_bytes bytes = .ok ⟨m, some d⟩ ∧
        d = (bytes.drop 4).take (lengthField bytes - 2) ∧
        d.length = lengthField bytes - 2 ∧
        segmentLength ⟨m, some d⟩ = lengthField bytes + 2) ∧
    (∀ (bytes : List Nat) (seg : Segment),
      Segment.read_from_start_of_bytes bytes = .ok seg →
      (seg.data = none ↔ (seg.marker = .StartOfImage ∨ seg.marker = .EndOfImage))) := by
  refine ⟨?_, ?_, ?_⟩
  · intro bytes m h2 hm hse
    exact ⟨read_token bytes m (by omega) hm hse, rfl⟩
  · intro bytes m hm hse hl hd
    have h4 : ¬ bytes.length < 4 := by omega
    refine ⟨(bytes.drop 4).take (lengthField bytes - 2),
      read_ok_data bytes m (by omega) hm hse h4 (by omega) (by omega), rfl, ?_, ?_⟩
    · simp [List.length_take]
      omega
    · simp [segmentLength, List.length_take]
      omega
  · intro bytes seg h
    rcases read_ok_inv bytes seg h with ⟨_, _, hcase⟩
    rcases hcase with ⟨hnone, hse⟩ | ⟨hse, _, _, _, hdata⟩
    · simp [hnone, hse]
    · simp [hdata, hse]

/-- Witness for C3: a StartOfImage with trailing padding and a Comment with
payload and padding (the `marker_no_requiring_data` and
`marker_with_data_and_padding` tests of `src/segment.rs`). -/
theorem read_one_shapes_witness :
    Segment.read_from_start_of_bytes [0xff, 0xd8, 0x00, 0x06, 0xab, 0xcd, 0xef] =
      .ok ⟨.StartOfImage, none⟩ ∧
    Segment.read_from_start_of_bytes
        [0xff, 0xfe, 0x00, 0x06, 0xab, 0xcd, 0xef, 0x03, 0x00, 0x17] =
      .ok ⟨.Comment, some [0xab, 0xcd, 0xef, 0x03]⟩ := by
  constructor
  · exact (read_one_shapes.1 [0xff, 0xd8, 0x00, 0x06, 0xab, 0xcd, 0xef] .StartOfImage
      (by simp) rfl (.inl rfl)).1
  · obtain ⟨d, hok, hd, _, _⟩ := read_one_shapes.2.1
      [0xff, 0xfe, 0x00, 0x06, 0xab, 0xcd, 0xef, 0x03, 0x00, 0x17] .Comment
      rfl (by simp) (by simp [lengthField]) (by simp [lengthField])
    rw [hok, hd]
    rfl

/-- Claim C4: each failure condition of `read_from_start_of_bytes` produces
exactly the corresponding classified error, and outside all failure
conditions the read succeeds. -/
theorem read_one_error_classification :
    (∀ bytes : List Nat, bytes.length < 2 →
      Segment.read_from_start_of_bytes bytes = .error (.tooFewBytes bytes.length)) ∧
    (∀ (bytes : List Nat) (e : InvalidMarkerError), ¬ bytes.length < 2 →
      Marker.from_bytes (bytes.take 2) = .error e →
      Segment.read_from_start_of_bytes bytes = .error (.invalidMarker e)) ∧
    (∀ (bytes : List Nat) (m : Marker), ¬ bytes.length < 2 →
      Marker.from_bytes (bytes.take 2) = .ok m →
      ¬ (m = .StartOfImage ∨ m = .EndOfImage) → bytes.length < 4 →
      Segment.read_from_start_of_bytes bytes = .error .noLengthBytes) ∧
    (∀ (bytes : List Nat) (m : Marker), ¬ bytes.length < 2 →
      Marker.from_bytes (bytes.take 2) = .ok m →
      ¬ (m = .StartOfImage ∨ m = .EndOfImage) → ¬ bytes.length < 4 →
      lengthField bytes < 2 →
      Segment.read_from_start_of_bytes bytes =
        .error (.lengthLessThanTwo (lengthField bytes))) ∧
    (∀ (bytes : List Nat) (m : Marker), ¬ bytes.length < 2 →
      Marker.from_bytes (bytes.take 2) = .ok m →
      ¬ (m = .StartOfImage ∨ m = .EndOfImage) → ¬ bytes.length < 4 →
      ¬ lengthField bytes < 2 → bytes.length < lengthField bytes + 2 →
      Segment.read_from_start_of_bytes bytes =
        .error (.tooFewDataBytes (lengthField bytes - 2) (bytes.length - 4))) ∧
    (∀ (bytes : List Nat) (m : Marker), ¬ bytes.length < 2 →
      Marker.from_bytes (bytes.take 2) = .ok m →
      ((m = .StartOfImage ∨ m = .EndOfImage) ∨
        (¬ (m = .StartOfImage ∨ m = .EndOfImage) ∧ ¬ bytes.length < 4 ∧
          ¬ lengthField bytes < 2 ∧ ¬ bytes.length < lengthField bytes + 2)) →
      ∃ seg, Segment.read_from_start_of_bytes bytes = .ok seg) := by
  refine ⟨read_too_few, read_invalid_marker, read_no_length, read_len_lt_two,
    read_too_few_data, ?_⟩
  intro bytes m h2 hm hcase
  rcases hcase with hse | ⟨hse, h4, hl, hd⟩
  · exact ⟨⟨m, none⟩, read_token bytes m h2 hm hse⟩
  · exact ⟨⟨m, some ((bytes.drop 4).take (lengthField bytes - 2))⟩,
      read_ok_data bytes m h2 hm hse h4 hl hd⟩

/-- Witness for C4 at the concrete inputs of the `src/segment.rs` tests:
one input per failure class and one succeeding input. -/
theorem read_one_error_classification_witness :
    Segment.read_from_start_of_bytes [0] = .error (.tooFewBytes 1) ∧
    Segment.read_from_start_of_bytes [0, 0] =
      .error (.invalidMarker { bytes := [0, 0], kind := .unknownCode 0 0 }) ∧
    Segment.read_from_start_of_bytes [0xff, 0xfe, 0x01] = .error .noLengthBytes ∧
    Segment.read_from_start_of_bytes [0xff, 0xfe, 0x00, 0x01] =
      .error (.lengthLessThanTwo 1) ∧
    Segment.read_from_start_of_bytes [0xff, 0xfe, 0x00, 0x06, 0xab, 0xcd, 0xef] =
      .error (.tooFewDataBytes 4 3) ∧
    ∃ seg, Segment.read_from_start_of_bytes [0xff, 0xd8] = .ok seg := by
  refine ⟨?_, ?_, ?_, ?_, ?_, ?_⟩
  · exact read_one_error_classification.1 [0] (by simp)
  · exact read_one_error_classification.2.1 [0, 0] _ (by simp) rfl
  · exact read_one_error_classification.2.2.1 [0xff, 0xfe, 0x01] .Comment
      (by simp) rfl (by simp) (by simp)
  · have h := read_one_error_classification.2.2.2.1 [0xff, 0xfe, 0x00, 0x01] .Comment
      (by simp) rfl (by simp) (by simp) (by simp [lengthField])
    simpa [lengthField] using h
  · have h := read_one_error_classification.2.2.2.2.1
      [0xff, 0xfe, 0x00, 0x06, 0xab, 0xcd, 0xef] .Comment
      (by simp) rfl (by simp) (by simp) (by simp [lengthField]) (by simp [lengthField])
    simpa [lengthField] using h
  · exact read_one_error_classification.2.2.2.2.2 [0xff, 0xd8] .StartOfImage
      (by simp) rfl (.inl (.inl rfl))

/-- Claim C5: no unchecked faults: on a successful read the payload slice was
fully in bounds; a `tooFewDataBytes` error's fields come from subtractions
whose guards held; and the stream only ever indexes the buffer at a cursor
strictly inside it.  All failures are returned as typed error values. -/
theorem core_no_unchecked_faults :
    (∀ (bytes : List Nat) (seg : Segment) (d : List Nat),
      Segment.read_from_start_of_bytes bytes = .ok seg → seg.data = some d →
      2 ≤ lengthField bytes ∧ d = (bytes.drop 4).take (lengthField bytes - 2) ∧
        4 + d.length ≤ bytes.length) ∧
    (∀ (bytes : List Nat) (e a : Nat),
      Segment.read_from_start_of_bytes bytes = .error (.tooFewDataBytes e a) →
      4 ≤ bytes.length ∧ 2 ≤ lengthField bytes ∧
        e + 2 = lengthField bytes ∧ a + 4 = bytes.length) ∧
    (∀ (bytes : List Nat) (err : ParseToSegmentsError),
      Segment.parse_bytes_to_segments bytes = .error err →
      err.bytes_parsed < bytes.length) := by
  refine ⟨?_, ?_, ?_⟩
  · intro bytes seg d h hd
    rcases read_ok_inv bytes seg h with ⟨_, _, hcase⟩
    rcases hcase with ⟨hnone, _⟩ | ⟨_, h4, hl, hle, hdata⟩
    · rw [hnone] at hd
      exact absurd hd (by simp)
    · rw [hdata] at hd
      injection hd with hd
      subst hd
      refine ⟨hl, rfl, ?_⟩
      simp [List.length_take]
      omega
  · intro bytes e a h
    obtain ⟨h4, hl, he, ha, _⟩ := read_too_few_data_inv bytes e a h
    exact ⟨h4, hl, he, ha⟩
  · intro bytes err h
    obtain ⟨_, hb, _⟩ := parseLoop_err_inv bytes bytes.length 0 [] 0 err
      (by omega) (by omega) h
    exact hb

/-- Witness for C5 at concrete inputs from the `src/segment.rs` tests. -/
theorem core_no_unchecked_faults_witness :
    (2 ≤ lengthField [0xff, 0xfe, 0x00, 0x06, 0xab, 0xcd, 0xef, 0x03] ∧
      [0xab, 0xcd, 0xef, 0x03] =
        (([0xff, 0xfe, 0x00, 0x06, 0xab, 0xcd, 0xef, 0x03] : List Nat).drop 4).take
          (lengthField [0xff, 0xfe, 0x00, 0x06, 0xab, 0xcd, 0xef, 0x03] - 2) ∧
      4 + ([0xab, 0xcd, 0xef, 0x03] : List Nat).length ≤ 8) ∧
    (4 ≤ 7 ∧ 2 ≤ lengthField [0xff, 0xfe, 0x00, 0x06, 0xab, 0xcd, 0xef] ∧
      4 + 2 = lengthField [0xff, 0xfe, 0x00, 0x06, 0xab, 0xcd, 0xef] ∧ 3 + 4 = 7) ∧
    (2 : Nat) < 8 := by
  refine ⟨?_, ?_, ?_⟩
  · have h := core_no_unchecked_faults.1 [0xff, 0xfe, 0x00, 0x06, 0xab, 0xcd, 0xef, 0x03]
      ⟨.Comment, some [0xab, 0xcd, 0xef, 0x03]⟩ [0xab, 0xcd, 0xef, 0x03] (by rfl) rfl
    simpa using h
  · have h := core_no_unchecked_faults.2.1 [0xff, 0xfe, 0x00, 0x06, 0xab, 0xcd, 0xef]
      4 3 (by rfl)
    simpa using h
  · have h := core_no_unchecked_faults.2.2 [0xff, 0xd8, 0xff, 0xfe, 0x00, 0x05, 0x01, 0x23]
      ⟨2, 1, .tooFewDataBytes 3 2⟩
      (by simp [Segment.parse_bytes_to_segments, parseLoop,
        Segment.read_from_start_of_bytes, Marker.from_bytes, InvalidMarkerError.new,
        segmentLength])
    exact h



/-- Claim C8: the parse loop terminates on every finite buffer: every
successful segment read advances the cursor by at least 2 bytes and never
past the end, the loop step strictly increases the cursor, and on success
the total bytes walked are bounded by the buffer length.  The definition
`parseLoop` itself carries the termination measure
`bytes.length - bytes_parsed`. -/
theorem parse_terminates_linear :
    (∀ (bytes : List Nat) (seg : Segment),
      Segment.read_from_start_of_bytes bytes = .ok seg →
      2 ≤ segmentLength seg ∧ segmentLength seg ≤ bytes.length) ∧
    (∀ (B : List Nat) (c : Nat) (acc : List Segment) (n : Nat) (seg : Segment),
      c < B.length → Segment.read_from_start_of_bytes (B.drop c) = .ok seg →
      c < c + segmentLength seg ∧ c + segmentLength seg ≤ B.length ∧
        parseLoop B c acc n =
          parseLoop B (c + segmentLength seg) (acc ++ [seg]) (n + 1)) ∧
    (∀ (bytes : List Nat) (segs : List Segment),
      Segment.parse_bytes_to_segments bytes = .ok segs →
      (segs.map segmentLength).sum ≤ bytes.length) := by
  refine ⟨?_, ?_, ?_⟩
  · intro bytes seg h
    exact ⟨segmentLength_ge_two seg, read_consumed_le bytes seg h⟩
  · intro B c acc n seg hlt hr
    have hle := read_consumed_le _ _ hr
    rw [List.length_drop] at hle
    have h2 := segmentLength_ge_two seg
    exact ⟨by omega, by omega, parseLoop_step_ok B c acc n seg hlt hr⟩
  · intro bytes segs h
    obtain ⟨t, ht, hsum⟩ := parseLoop_ok_inv bytes bytes.length 0 [] 0 segs
      (by omega) (by omega) h
    simp at ht
    subst ht
    omega

/-- Witness for C8 at the two-segment buffer of the
`parse_valid_segments` test. -/
theorem parse_terminates_linear_witness :
    (2 ≤ segmentLength ⟨.StartOfImage, none⟩ ∧
      segmentLength ⟨.StartOfImage, none⟩ ≤ 2) ∧
    ([⟨.StartOfImage, none⟩, (⟨.Comment, some [0x01, 0x23, 0x45]⟩ : Segment)].map
        segmentLength).sum ≤ 9 := by
  constructor
  · exact parse_terminates_linear.1 [0xff, 0xd8] ⟨.StartOfImage, none⟩ (by rfl)
  · exact parse_terminates_linear.2.2 [0xff, 0xd8, 0xff, 0xfe, 0x00, 0x05, 0x01, 0x23, 0x45]
      [⟨.StartOfImage, none⟩, ⟨.Comment, some [0x01, 0x23, 0x45]⟩]
      (by simp [Segment.parse_bytes_to_segments, parseLoop,
        Segment.read_from_start_of_bytes, Marker.from_bytes, InvalidMarkerError.new,
        segmentLength])

/-- Claim C9: the advance the stream recomputes from a successfully read
segment alone equals the wire-format record size at the cursor: 2 for a
payload-free token, length field plus 2 for a length-delimited record, so
the cursor lands immediately after the record just consumed. -/
theorem stream_advance_matches_wire (bytes : List Nat) (seg : Segment)
    (h : Segment.read_from_start_of_bytes bytes = .ok seg) :
    ((seg.marker = .StartOfImage ∨ seg.marker = .EndOfImage) ∧ seg.data = none ∧
        segmentLength seg = 2) ∨
      (¬ (seg.marker = .StartOfImage ∨ seg.marker = .EndOfImage) ∧
        segmentLength seg = lengthField bytes + 2) := by
  rcases read_ok_inv bytes seg h with ⟨_, _, hcase⟩
  rcases hcase with ⟨hnone, hse⟩ | ⟨hse, h4, hl, hle, hdata⟩
  · exact .inl ⟨hse, hnone, by simp [segmentLength, hnone]⟩
  · refine .inr ⟨hse, ?_⟩
    simp [segmentLength, hdata, List.length_take]
    omega

/-- Witness for C9 on the Comment-with-padding test buffer. -/
theorem stream_advance_matches_wire_witness :
    ((Marker.Comment = .StartOfImage ∨ Marker.Comment = .EndOfImage) ∧
        (some [0xab, 0xcd, 0xef, 0x03] : Option (List Nat)) = none ∧
        segmentLength ⟨.Comment, some [0xab, 0xcd, 0xef, 0x03]⟩ = 2) ∨
      (¬ (Marker.Comment = .StartOfImage ∨ Marker.Comment = .EndOfImage) ∧
        segmentLength ⟨.Comment, some [0xab, 0xcd, 0xef, 0x03]⟩ =
          lengthField [0xff, 0xfe, 0x00, 0x06, 0xab, 0xcd, 0xef, 0x03, 0x00, 0x17] + 2) :=
  stream_advance_matches_wire
    [0xff, 0xfe, 0x00, 0x06, 0xab, 0xcd, 0xef, 0x03, 0x00, 0x17]
    ⟨.Comment, some [0xab, 0xcd, 0xef, 0x03]⟩ (by rfl)



/-- Claim C1: parsing the exact concatenation of the wire bytes of N valid
segments returns exactly those N segments in order; the empty buffer parses
to the empty list; and a successful parse always consumes the whole buffer
(the final cursor, the sum of the recomputed segment lengths, equals the
buffer length), so no successful parse leaves trailing bytes. -/
theorem parse_exact_concatenation :
    (∀ segs : List Segment, (∀ s ∈ segs, validSegment s) →
      Segment.parse_bytes_to_segments (encodeSegments segs) = .ok segs) ∧
    Segment.parse_bytes_to_segments [] = .ok [] ∧
    (∀ (bytes : List Nat) (segs : List Segment),
      Segment.parse_bytes_to_segments bytes = .ok segs →
      (segs.map segmentLength).sum = bytes.length) := by
  refine ⟨?_, ?_, ?_⟩
  · intro segs hv
    unfold Segment.parse_bytes_to_segments
    rw [parseLoop_chunk segs hv [] (encodeSegments segs) 0 [] 0 (by simp)]
    simp only [Nat.zero_add, List.nil_append]
    exact parseLoop_exit _ _ _ _ (by omega)
  · unfold Segment.parse_bytes_to_segments
    exact parseLoop_exit [] 0 [] 0 (by simp)
  · intro bytes segs h
    obtain ⟨t, ht, hsum⟩ := parseLoop_ok_inv bytes bytes.length 0 [] 0 segs
      (by omega) (by omega) h
    simp at ht
    subst ht
    omega

/-- Witness for C1 on the two-segment buffer of the `parse_valid_segments`
test: StartOfImage followed by a Comment with 3 payload bytes. -/
theorem parse_exact_concatenation_witness :
    Segment.parse_bytes_to_segments [0xff, 0xd8, 0xff, 0xfe, 0x00, 0x05, 0x01, 0x23, 0x45] =
      .ok [⟨.StartOfImage, none⟩, ⟨.Comment, some [0x01, 0x23, 0x45]⟩] := by
  have h := parse_exact_concatenation.1
    [⟨.StartOfImage, none⟩, ⟨.Comment, some [0x01, 0x23, 0x45]⟩]
    (by
      intro s hs
      simp at hs
      rcases hs with h | h <;> subst h <;> simp [validSegment])
  simpa [encodeSegments, encodeSegment, markerCode] using h

/-- Claim C2: on a buffer that is the wire bytes of k valid segments followed
by a nonempty remainder on which the next segment read fails, the parse stops
at that first failure and returns an error whose `bytes_parsed` is the byte
size of the valid prefix, whose `segments_parsed` is k, and whose cause is
the failing segment-read error. -/
theorem parse_stops_at_first_failure (segs : List Segment) (rest : List Nat)
    (hv : ∀ s ∈ segs, validSegment s) (hne : rest ≠ [])
    (e : InvalidSegmentError)
    (hr : Segment.read_from_start_of_bytes rest = .error e) :
    Segment.parse_bytes_to_segments (encodeSegments segs ++ rest) =
      .error ⟨(encodeSegments segs).length, segs.length, e⟩ := by
  unfold Segment.parse_bytes_to_segments
  rw [parseLoop_chunk segs hv rest (encodeSegments segs ++ rest) 0 [] 0 (by simp)]
  have hlt : 0 + (encodeSegments segs).length < (encodeSegments segs ++ rest).length := by
    simp
    exact List.length_pos.mpr hne
  have hdrop : (encodeSegments segs ++ rest).drop (0 + (encodeSegments segs).length) =
      rest := by
    simp [List.drop_left]
  rw [parseLoop_step_err _ _ _ _ e hlt (by rw [hdrop]; exact hr)]
  simp

/-- Witness for C2 on the truncated buffer of the `parse_invalid_segments`
test: a StartOfImage followed by a Comment whose declared payload is cut
short. -/
theorem parse_stops_at_first_failure_witness :
    Segment.parse_bytes_to_segments [0xff, 0xd8, 0xff, 0xfe, 0x00, 0x05, 0x01, 0x23] =
      .error ⟨2, 1, .tooFewDataBytes 3 2⟩ := by
  have h := parse_stops_at_first_failure [⟨.StartOfImage, none⟩]
    [0xff, 0xfe, 0x00, 0x05, 0x01, 0x23]
    (by
      intro s hs
      simp at hs
      subst hs
      simp [validSegment])
    (by simp) (.tooFewDataBytes 3 2) (by rfl)
  simpa [encodeSegments, encodeSegment, markerCode] using h

end JpegDecoder
